import Mathlib

/-!
Verification development for the py2C register-access library
(uoft-chiplab/py2c, file `py2C.py`).

The Python source is shallowly embedded: the pure bit/byte helpers become
Lean functions on `Nat` (Python integers are unbounded, and every value
flowing through these helpers is non-negative), the two's-complement decoder
returns an `Int`, and the stateful register-access engine
(`I2c_device.get_config` / `I2c_device.config`) becomes explicit state
passing over a cache (`String → Option Nat`, `none` modelling a stored
Python `None`) and a bus register file (`Nat → List Nat`, register address
to byte list), together with an explicit trace of bus transactions.
-/

namespace Py2C

/-! ### Bit and byte helpers (py2C.py lines 31-66) -/

/-- `bit_grab(num,start,nbits)` (py2C.py lines 38-41): the value of `nbits`
bits of `num`, starting at bit `start`, counting from the LSB.
Source: `return (2**nbits-1)&(num>>start)`. -/
def bit_grab (num start nbits : Nat) : Nat :=
  (2 ^ nbits - 1) &&& (num >>> start)

/-- `bit_set(num,start,nbits,value)` (py2C.py lines 43-46).
Source: `return num + (value<<start) - (num&((2**nbits-1)<<start))`.
Note that the source performs no range check on `value`. -/
def bit_set (num start nbits value : Nat) : Nat :=
  num + (value <<< start) - (num &&& ((2 ^ nbits - 1) <<< start))

/-- `twoscompl2int(num,n)` (py2C.py lines 48-51).
Source: `return (num&(2**(n-1)-1)) - (num & (~(2**(n-1)-1)))`.
Python integers are unbounded two's complement, exactly the semantics of
Mathlib's `Int.land`/`Int.lnot`; `num` itself is always a non-negative
register value at every call site. -/
def twoscompl2int (num : Nat) (n : Nat := 8) : Int :=
  Int.land (num : Int) ((2 ^ (n - 1) - 1 : Nat) : Int) -
    Int.land (num : Int) (Int.lnot ((2 ^ (n - 1) - 1 : Nat) : Int))

/-- `bytes2int(byte_array)` (py2C.py lines 53-59): big-endian byte list to
integer. The Python source indexes `byte_array[0]` and therefore raises on
an empty list; the engine only ever passes lists produced by a bus read or
by `int2bytes`, so the `[]` case is unreachable there and is totalised to 0. -/
def bytes2int (byte_array : List Nat) : Nat :=
  match byte_array with
  | [] => 0
  | b :: rest => rest.foldl (fun out x => (out <<< 8) + x) b

/-- `int2bytes(value,nbytes)` (py2C.py lines 61-65): big-endian split into
`nbytes` bytes, each byte masked with `0xff` (so an over-wide `value` is
silently truncated). -/
def int2bytes (value : Nat) (nbytes : Nat) : List Nat :=
  (List.range nbytes).map fun i =>
    (value &&& (0xff <<< ((nbytes - i - 1) * 8))) >>> ((nbytes - i - 1) * 8)

/-! ### Arithmetic normal forms for the bit helpers -/

theorem bit_grab_eq (num start nbits : Nat) :
    bit_grab num start nbits = num / 2 ^ start % 2 ^ nbits := by
  unfold bit_grab
  rw [Nat.and_comm, Nat.and_pow_two_sub_one_eq_mod, Nat.shiftRight_eq_div_pow]

theorem and_mask_shift (num s w : Nat) :
    num &&& ((2 ^ w - 1) <<< s) = num / 2 ^ s % 2 ^ w * 2 ^ s := by
  have h : num &&& ((2 ^ w - 1) <<< s) = ((num >>> s) % 2 ^ w) <<< s := by
    apply Nat.eq_of_testBit_eq
    intro i
    simp only [Nat.testBit_and, Nat.testBit_shiftLeft, Nat.testBit_mod_two_pow,
      Nat.testBit_shiftRight, Nat.testBit_two_pow_sub_one, ge_iff_le]
    by_cases hsi : s ≤ i
    · have : s + (i - s) = i := by omega
      rw [this]
      cases num.testBit i <;> simp [hsi]
    · simp [hsi]
  rw [h, Nat.shiftLeft_eq, Nat.shiftRight_eq_div_pow]

theorem bit_set_eq (num s w v : Nat) :
    bit_set num s w v = num + v * 2 ^ s - num / 2 ^ s % 2 ^ w * 2 ^ s := by
  unfold bit_set
  rw [and_mask_shift, Nat.shiftLeft_eq]

/-- Decomposition of `num` around the bit window `[s, s+w)`. -/
theorem num_window_decomp (num s w : Nat) :
    num = num / 2 ^ (s + w) * 2 ^ (s + w) + num / 2 ^ s % 2 ^ w * 2 ^ s
      + num % 2 ^ s := by
  have h1 : num / 2 ^ s * 2 ^ s + num % 2 ^ s = num := Nat.div_add_mod' _ _
  have h2 : num / 2 ^ s / 2 ^ w * 2 ^ w + num / 2 ^ s % 2 ^ w = num / 2 ^ s :=
    Nat.div_add_mod' _ _
  have h3 : num / 2 ^ s / 2 ^ w = num / 2 ^ (s + w) := by
    rw [Nat.div_div_eq_div_mul, pow_add]
  rw [h3] at h2
  have h4 : num / 2 ^ (s + w) * 2 ^ (s + w)
      = num / 2 ^ (s + w) * 2 ^ w * 2 ^ s := by
    rw [pow_add]; ring
  rw [h4]
  calc num = num / 2 ^ s * 2 ^ s + num % 2 ^ s := h1.symm
    _ = (num / 2 ^ (s + w) * 2 ^ w + num / 2 ^ s % 2 ^ w) * 2 ^ s
        + num % 2 ^ s := by rw [h2]
    _ = num / 2 ^ (s + w) * 2 ^ w * 2 ^ s + num / 2 ^ s % 2 ^ w * 2 ^ s
        + num % 2 ^ s := by ring

/-- For an in-range `value`, `bit_set` splices it into the window `[s,s+w)`:
high bits and low bits of `num` survive unchanged. -/
theorem bit_set_decomp (num s w v : Nat) :
    bit_set num s w v
      = num / 2 ^ (s + w) * 2 ^ (s + w) + v * 2 ^ s + num % 2 ^ s := by
  have hd := num_window_decomp num s w
  have hle : num / 2 ^ s % 2 ^ w * 2 ^ s ≤ num := by omega
  rw [bit_set_eq]
  omega

theorem bit_grab_bit_set (num s w v : Nat) (hv : v < 2 ^ w) :
    bit_grab (bit_set num s w v) s w = v := by
  rw [bit_grab_eq, bit_set_decomp]
  have h1 : num / 2 ^ (s + w) * 2 ^ (s + w) + v * 2 ^ s + num % 2 ^ s
      = num % 2 ^ s + (num / 2 ^ (s + w) * 2 ^ w + v) * 2 ^ s := by
    rw [pow_add]; ring
  rw [h1, Nat.add_mul_div_right _ _ (Nat.pos_pow_of_pos s (by norm_num)),
    Nat.div_eq_of_lt (Nat.mod_lt _ (Nat.pos_pow_of_pos s (by norm_num))),
    Nat.zero_add]
  rw [Nat.add_comm, Nat.add_mul_mod_self_right, Nat.mod_eq_of_lt hv]

/-- Adding a multiple of `2^a` does not change a bit window lying
entirely below bit `a`. -/
theorem bit_grab_add_mul_high (y k a bs bw : Nat) (h : bs + bw ≤ a) :
    bit_grab (y + k * 2 ^ a) bs bw = bit_grab y bs bw := by
  rw [bit_grab_eq, bit_grab_eq]
  have ha : (2 : Nat) ^ a = 2 ^ (a - bs - bw) * 2 ^ bw * 2 ^ bs := by
    rw [← pow_add, ← pow_add]
    congr 1
    omega
  have h1 : (y + k * 2 ^ a) / 2 ^ bs
      = y / 2 ^ bs + k * (2 ^ (a - bs - bw) * 2 ^ bw) := by
    rw [ha, ← Nat.mul_assoc,
      Nat.add_mul_div_right _ _ (Nat.pos_pow_of_pos bs (by norm_num))]
  rw [h1, ← Nat.mul_assoc, Nat.add_mul_mod_self_right]

/-- Truncating above the window does not change the window. -/
theorem bit_grab_mod (y k bs bw : Nat) (h : bs + bw ≤ k) :
    bit_grab (y % 2 ^ k) bs bw = bit_grab y bs bw := by
  conv_rhs => rw [← Nat.mod_add_div y (2 ^ k)]
  rw [show y % 2 ^ k + 2 ^ k * (y / 2 ^ k) = y % 2 ^ k + y / 2 ^ k * 2 ^ k by
    ring]
  rw [bit_grab_add_mul_high _ _ _ _ _ h]

/-- `bit_set` leaves any window lying entirely below the written window
unchanged (no range condition on `value` is needed: the written bits only
spill upward). -/
theorem bit_grab_bit_set_lo (num as aw v bs bw : Nat) (h : bs + bw ≤ as) :
    bit_grab (bit_set num as aw v) bs bw = bit_grab num bs bw := by
  have hle : num / 2 ^ as % 2 ^ aw * 2 ^ as ≤ num := by
    have := num_window_decomp num as aw
    omega
  have hx : bit_set num as aw v
      = (num - num / 2 ^ as % 2 ^ aw * 2 ^ as) + v * 2 ^ as := by
    rw [bit_set_eq]; omega
  have hy : num = (num - num / 2 ^ as % 2 ^ aw * 2 ^ as)
      + num / 2 ^ as % 2 ^ aw * 2 ^ as := by omega
  rw [hx, bit_grab_add_mul_high _ _ _ _ _ h]
  conv_rhs => rw [hy, bit_grab_add_mul_high _ _ _ _ _ h]

/-- A window value below `2^aw` shifted to position `as`, plus low bits,
stays below `2^(as+aw)`. -/
theorem window_bound (M lo aw as : Nat) (hM : M < 2 ^ aw) (hlo : lo < 2 ^ as) :
    M * 2 ^ as + lo < 2 ^ (as + aw) := by
  have h1 : M * 2 ^ as + lo < (M + 1) * 2 ^ as := by
    rw [Nat.succ_mul]
    omega
  have h2 : (M + 1) * 2 ^ as ≤ 2 ^ aw * 2 ^ as :=
    Nat.mul_le_mul_right _ (Nat.succ_le_of_lt hM)
  have h3 : (2 : Nat) ^ aw * 2 ^ as = 2 ^ (as + aw) := by
    rw [← pow_add, Nat.add_comm]
  omega

/-- `bit_set` with an in-range `value` leaves any window lying entirely
above the written window unchanged. -/
theorem bit_grab_bit_set_hi (num as aw v bs bw : Nat) (hv : v < 2 ^ aw)
    (h : as + aw ≤ bs) :
    bit_grab (bit_set num as aw v) bs bw = bit_grab num bs bw := by
  rw [bit_grab_eq, bit_grab_eq, bit_set_decomp]
  have hpos : (0 : Nat) < 2 ^ (as + aw) := Nat.pos_pow_of_pos _ (by norm_num)
  have hbs : (2 : Nat) ^ bs = 2 ^ (as + aw) * 2 ^ (bs - (as + aw)) := by
    rw [← pow_add]
    congr 1
    omega
  have key : ∀ small : Nat, small < 2 ^ (as + aw) →
      (num / 2 ^ (as + aw) * 2 ^ (as + aw) + small) / 2 ^ bs
        = num / 2 ^ (as + aw) / 2 ^ (bs - (as + aw)) := by
    intro small hsmall
    rw [hbs, ← Nat.div_div_eq_div_mul]
    congr 1
    rw [Nat.mul_comm, Nat.mul_add_div hpos]
    rw [Nat.div_eq_of_lt hsmall, Nat.add_zero]
  have hsmall1 : v * 2 ^ as + num % 2 ^ as < 2 ^ (as + aw) :=
    window_bound v (num % 2 ^ as) aw as hv
      (Nat.mod_lt _ (Nat.pos_pow_of_pos _ (by norm_num)))
  have hsmall2 : num / 2 ^ as % 2 ^ aw * 2 ^ as + num % 2 ^ as
      < 2 ^ (as + aw) :=
    window_bound _ _ aw as
      (Nat.mod_lt _ (Nat.pos_pow_of_pos _ (by norm_num)))
      (Nat.mod_lt _ (Nat.pos_pow_of_pos _ (by norm_num)))
  rw [Nat.add_assoc, key _ hsmall1]
  conv_rhs => rw [num_window_decomp num as aw, Nat.add_assoc, key _ hsmall2]

/-! ### Byte assembly and splitting -/

theorem bytes2int_eq_foldl (l : List Nat) :
    bytes2int l = l.foldl (fun out x => (out <<< 8) + x) 0 := by
  cases l with
  | nil => rfl
  | cons b t => simp [bytes2int, List.foldl_cons, Nat.shiftLeft_eq]

theorem foldl_bytes_acc (t : List Nat) (acc : Nat) :
    t.foldl (fun out x => (out <<< 8) + x) acc
      = acc * 2 ^ (8 * t.length)
        + t.foldl (fun out x => (out <<< 8) + x) 0 := by
  induction t generalizing acc with
  | nil => simp
  | cons h t ih =>
    simp only [List.foldl_cons, List.length_cons]
    rw [ih ((acc <<< 8) + h), ih ((0 <<< 8) + h)]
    have hsh : ∀ a : Nat, a <<< 8 = a * 2 ^ 8 := fun a => Nat.shiftLeft_eq a 8
    have hp : (2 : Nat) ^ (8 * (t.length + 1)) = 2 ^ (8 * t.length) * 2 ^ 8 := by
      rw [show 8 * (t.length + 1) = 8 * t.length + 8 by ring, pow_add]
    rw [hsh, hsh, hp]
    have h0 : (0 : Nat) * 2 ^ 8 = 0 := by ring
    rw [h0, Nat.zero_add]
    ring

theorem bytes2int_cons (h : Nat) (t : List Nat) :
    bytes2int (h :: t) = h * 2 ^ (8 * t.length) + bytes2int t := by
  rw [bytes2int_eq_foldl, bytes2int_eq_foldl, List.foldl_cons,
    foldl_bytes_acc t ((0 <<< 8) + h)]
  norm_num

theorem byte_extract (x s : Nat) :
    (x &&& (0xff <<< s)) >>> s = x / 2 ^ s % 2 ^ 8 := by
  have h255 : (0xff : Nat) = 2 ^ 8 - 1 := by norm_num
  rw [h255, and_mask_shift, Nat.shiftRight_eq_div_pow,
    Nat.mul_div_cancel _ (Nat.pos_pow_of_pos s (by norm_num))]

theorem int2bytes_length (x n : Nat) : (int2bytes x n).length = n := by
  simp [int2bytes]

theorem int2bytes_succ (x n : Nat) :
    int2bytes x (n + 1) = (x / 2 ^ (n * 8) % 2 ^ 8) :: int2bytes x n := by
  unfold int2bytes
  rw [List.range_succ_eq_map, List.map_cons, List.map_map]
  congr 1
  · show (x &&& (0xff <<< ((n + 1 - 0 - 1) * 8))) >>> ((n + 1 - 0 - 1) * 8)
        = x / 2 ^ (n * 8) % 2 ^ 8
    have : n + 1 - 0 - 1 = n := by omega
    rw [this, byte_extract]
  · apply List.map_congr_left
    intro i _
    show (x &&& (0xff <<< ((n + 1 - (i + 1) - 1) * 8))) >>>
          ((n + 1 - (i + 1) - 1) * 8)
        = (x &&& (0xff <<< ((n - i - 1) * 8))) >>> ((n - i - 1) * 8)
    have : n + 1 - (i + 1) - 1 = n - i - 1 := by omega
    rw [this]

/-- Assembling the bytes produced by `int2bytes` recovers the value modulo
the register width: `bytes2int (int2bytes x n) = x % 2^(8n)`. -/
theorem bytes2int_int2bytes (x n : Nat) :
    bytes2int (int2bytes x n) = x % 2 ^ (8 * n) := by
  induction n with
  | zero => simp [int2bytes, bytes2int, Nat.mod_one]
  | succ n ih =>
    rw [int2bytes_succ, bytes2int_cons, int2bytes_length, ih]
    have hp : (2 : Nat) ^ (8 * (n + 1)) = 2 ^ (8 * n) * 2 ^ 8 := by
      rw [show 8 * (n + 1) = 8 * n + 8 by ring, pow_add]
    have hmm : x % (2 ^ (8 * n) * 2 ^ 8)
        = x % 2 ^ (8 * n) + 2 ^ (8 * n) * (x / 2 ^ (8 * n) % 2 ^ 8) :=
      Nat.mod_mul
    have hc : x / 2 ^ (n * 8) % 2 ^ 8 * 2 ^ (8 * n)
        = 2 ^ (8 * n) * (x / 2 ^ (8 * n) % 2 ^ 8) := by
      rw [Nat.mul_comm 8 n]
      ring
    rw [hp, hmm, hc]
    omega

/-! ### Two's-complement decoding -/

theorem ldiff_two_pow_sub_one (num k : Nat) :
    Nat.ldiff num (2 ^ k - 1) = num - num % 2 ^ k := by
  have h : Nat.ldiff num (2 ^ k - 1) = (num >>> k) <<< k := by
    apply Nat.eq_of_testBit_eq
    intro i
    rw [Nat.testBit_ldiff]
    simp only [Nat.testBit_two_pow_sub_one, Nat.testBit_shiftLeft,
      Nat.testBit_shiftRight, ge_iff_le]
    by_cases hki : k ≤ i
    · have : k + (i - k) = i := by omega
      rw [this]
      simp [hki, Nat.not_lt_of_le hki, Bool.and_comm]
    · simp [hki]
      omega
  rw [h, Nat.shiftLeft_eq, Nat.shiftRight_eq_div_pow]
  have := Nat.div_add_mod' num (2 ^ k)
  omega

/-- `twoscompl2int num n = (num % 2^(n-1)) - (num - num % 2^(n-1))`, i.e. the
low `n-1` bits minus the bits at and above position `n-1`. -/
theorem twoscompl2int_eq (num n : Nat) :
    twoscompl2int num n
      = ((num % 2 ^ (n - 1) : Nat) : Int)
        - ((num - num % 2 ^ (n - 1) : Nat) : Int) := by
  unfold twoscompl2int
  have h1 : Int.land (num : Int) ((2 ^ (n - 1) - 1 : Nat) : Int)
      = ((num &&& (2 ^ (n - 1) - 1) : Nat) : Int) := rfl
  have h2 : Int.land (num : Int) (Int.lnot ((2 ^ (n - 1) - 1 : Nat) : Int))
      = ((Nat.ldiff num (2 ^ (n - 1) - 1) : Nat) : Int) := rfl
  rw [h1, h2, Nat.and_pow_two_sub_one_eq_mod, ldiff_two_pow_sub_one]

theorem twoscompl2int_bounds (num n : Nat) (hn : 1 ≤ n)
    (hnum : num < 2 ^ n) :
    -(2 ^ (n - 1) : Int) ≤ twoscompl2int num n ∧
      twoscompl2int num n ≤ 2 ^ (n - 1) - 1 := by
  rw [twoscompl2int_eq]
  have hcast : ((2 : Nat) ^ (n - 1) : Int) = (2 : Int) ^ (n - 1) := by
    push_cast
    ring
  rw [← hcast]
  have hP : (0 : Nat) < 2 ^ (n - 1) := Nat.pos_pow_of_pos _ (by norm_num)
  have h2 : (2 : Nat) ^ n = 2 ^ (n - 1) * 2 := by
    rw [show n = (n - 1) + 1 by omega, pow_succ]
    rw [show (n - 1) + 1 - 1 = n - 1 by omega]
  rw [h2] at hnum
  by_cases hc : num < 2 ^ (n - 1)
  · have hm : num % 2 ^ (n - 1) = num := Nat.mod_eq_of_lt hc
    rw [hm]
    omega
  · have hm : num % 2 ^ (n - 1) = num - 2 ^ (n - 1) := by
      rw [Nat.mod_eq_sub_mod (by omega), Nat.mod_eq_of_lt (by omega)]
    rw [hm]
    omega

/-! ### Claims about the bit arithmetic library -/

/-- C6 counterexample: the claim says `set_bits(value,start,width,new_field)`
fails with a range error whenever `new_field ≥ 2^width`. The source
`bit_set` has no check and no failure path: at `num=0, start=0, width=1,
new_field=2` it silently returns `2`. The returned number is not the window
replacement the claim describes either: the 1-bit window at offset 0 reads
`0`, not `2 % 2`, and bit 1 — outside the window, previously `0` — has
become `1`. -/
theorem C6_counterexample :
    bit_set 0 0 1 2 = 2 ∧
      bit_grab (bit_set 0 0 1 2) 0 1 = 0 ∧
      bit_grab (bit_set 0 0 1 2) 1 1 = 1 ∧
      bit_grab 0 1 1 = 0 := by
  refine ⟨?_, ?_, ?_, ?_⟩ <;> decide

/-- C6 (amended): `set_bits(value,start,width,new_field)` performs no range
check. Whenever `new_field < 2^width` it returns `value` with the
`width`-bit window at offset `start` replaced by `new_field` and every
window disjoint from it unchanged; the caller (`I2c_device.config`,
py2C.py line 279) is responsible for the `new_field < 2^width` range check. -/
theorem C6_bit_set_window_replacement (num start width value : Nat)
    (hv : value < 2 ^ width) :
    bit_grab (bit_set num start width value) start width = value ∧
      ∀ bs bw, bs + bw ≤ start ∨ start + width ≤ bs →
        bit_grab (bit_set num start width value) bs bw = bit_grab num bs bw := by
  refine ⟨bit_grab_bit_set num start width value hv, ?_⟩
  intro bs bw h
  cases h with
  | inl h => exact bit_grab_bit_set_lo num start width value bs bw h
  | inr h => exact bit_grab_bit_set_hi num start width value bs bw hv h

theorem C6_bit_set_window_replacement_witness :
    (1 : Nat) < 2 ^ 2 ∧
      (bit_grab (bit_set 0b10111 2 2 1) 2 2 = 1 ∧
        ∀ bs bw, bs + bw ≤ 2 ∨ 2 + 2 ≤ bs →
          bit_grab (bit_set 0b10111 2 2 1) bs bw = bit_grab 0b10111 bs bw) :=
  ⟨by norm_num, C6_bit_set_window_replacement 0b10111 2 2 1 (by norm_num)⟩

/-- C7: for all `width ∈ [1,16]`, `start ∈ [0,16-width]`,
`value ∈ [0, 2^width - 1]` and any base `v`,
`extract_bits(set_bits(v,start,width,value),start,width) = value`.
(The proof does not even need the bounds on `width` and `start`; they are
kept because the claim states them.) -/
theorem C7_set_extract_roundtrip (v start width value : Nat)
    (hw1 : 1 ≤ width) (hw2 : width ≤ 16) (hs : start ≤ 16 - width)
    (hval : value < 2 ^ width) :
    bit_grab (bit_set v start width value) start width = value :=
  bit_grab_bit_set v start width value hval

theorem C7_set_extract_roundtrip_witness :
    (1 ≤ 3 ∧ 3 ≤ 16 ∧ 5 ≤ 16 - 3 ∧ 6 < 2 ^ 3) ∧
      bit_grab (bit_set 0xABCD 5 3 6) 5 3 = 6 :=
  ⟨by norm_num,
    C7_set_extract_roundtrip 0xABCD 5 3 6 (by norm_num) (by norm_num)
      (by norm_num) (by norm_num)⟩

/-- C8: `decode_twos_complement` boundary values at 16 bits, and the general
range bound: for `n ≥ 1` and `raw < 2^n` the result lies in
`[-2^(n-1), 2^(n-1)-1]`. -/
theorem C8_twos_complement (n raw : Nat) (hn : 1 ≤ n) (hraw : raw < 2 ^ n) :
    twoscompl2int 0x7FFF 16 = 32767 ∧
      twoscompl2int 0x8000 16 = -32768 ∧
      twoscompl2int 0xFFFF 16 = -1 ∧
      -(2 ^ (n - 1) : Int) ≤ twoscompl2int raw n ∧
      twoscompl2int raw n ≤ 2 ^ (n - 1) - 1 := by
  refine ⟨?_, ?_, ?_, (twoscompl2int_bounds raw n hn hraw).1,
    (twoscompl2int_bounds raw n hn hraw).2⟩ <;>
    rw [twoscompl2int_eq] <;> norm_num

theorem C8_twos_complement_witness :
    (1 ≤ 16 ∧ 0x8123 < 2 ^ 16) ∧
      (twoscompl2int 0x7FFF 16 = 32767 ∧
        twoscompl2int 0x8000 16 = -32768 ∧
        twoscompl2int 0xFFFF 16 = -1 ∧
        -(2 ^ (16 - 1) : Int) ≤ twoscompl2int 0x8123 16 ∧
        twoscompl2int 0x8123 16 ≤ 2 ^ (16 - 1) - 1) :=
  ⟨by norm_num, C8_twos_complement 16 0x8123 (by norm_num) (by norm_num)⟩

/-! ### The register-access engine (`I2c_device`, py2C.py lines 69-341)

State is passed explicitly:

* `Cache` models the `_config` dictionary: one stored value per field name,
  `none` modelling a stored Python `None` ("unknown"). A key missing from
  the dict (`KeyError`) and a stored `None` (`AssertionError`) are collapsed
  into `none`; both abort the operation before any bus transaction, and in
  every modelled flow `_config` holds exactly the register-map keys.
* `Bus` models the device's register file as seen through `smbus`: register
  address (control byte) to the byte list a block read returns and a block
  write stores.
* `Txn` is the trace of bus transactions an operation performs.
-/

/-- A decode-table entry (element 4 of a `_conf_reg` tuple): the source mixes
strings, ints and floats in these lists; floats are modelled as exact
rationals. -/
inductive DecodeVal where
  | s (v : String)
  | n (v : Nat)
  | q (v : ℚ)
deriving DecidableEq

/-- One `_conf_reg` field entry
`(register-address, start-bit, nbits, info, value-representation)`
(py2C.py lines 86-90); the value-representation (decode table) is absent on
some entries (e.g. the LSM9DS1 status bits). -/
structure ConfField where
  reg : Nat
  start : Nat
  nbits : Nat
  info : String
  decode : Option (List DecodeVal)
deriving DecidableEq

/-- The `_conf_reg` dictionary: the `'nbytes'` entry plus the field entries
in insertion order. -/
structure ConfReg where
  nbytes : Nat
  fields : List (String × ConfField)

/-- The `_config` dictionary (py2C.py line 84). -/
def Cache := String → Option Nat

/-- The device's register file over the bus. -/
def Bus := Nat → List Nat

/-- One bus transaction: a block read of `nbytes` at register `reg`, a block
write of `data` at register `reg` (`write_i2c_block_data`), or a single
byte written with no register pointer (`write_byte`). -/
inductive Txn where
  | read (reg nbytes : Nat)
  | write (reg : Nat) (data : List Nat)
  | writeByte (b : Nat)
deriving DecidableEq

/-- `self._conf_reg[kw]` for a field name. -/
def lookupField (m : ConfReg) (kw : String) : Option ConfField :=
  m.fields.lookup kw

/-- The cached-read loop of `get_config(read=False, *args)` (py2C.py lines
215-221): for each requested name, `assert self._config[kw] != None`, then
copy the cached value into the output dict. -/
def cachedLookup (cache : Cache) : List String → Except String (List (String × Nat))
  | [] => .ok []
  | kw :: rest =>
    match cache kw with
    | none => .error "Configuration has to be read from device once!"
    | some v => (cachedLookup cache rest).map (fun out => (kw, v) :: out)

/-- The register-collection step `if x not in regs: regs.append(x)`
(py2C.py line 277 and, as a model of the set comprehensions on lines 227 and
244, first-occurrence order; a Python set iterates in an unspecified order
and no claim depends on the order in which distinct registers are visited). -/
def appendRegs (regs : List Nat) : List Nat → List Nat
  | [] => regs
  | r :: rest => appendRegs (if r ∈ regs then regs else regs ++ [r]) rest

/-- Resolving every requested name against the register map; an unknown name
raises `KeyError` while the register set is built (py2C.py line 244), before
any bus read. -/
def resolveFields (m : ConfReg) : List String → Except String (List ConfField)
  | [] => .ok []
  | kw :: rest =>
    match lookupField m kw with
    | none => .error ("KeyError: " ++ kw)
    | some f => (resolveFields m rest).map (f :: ·)

/-- `regs = {self._conf_reg[kw][0] for kw in args}` (py2C.py line 244). -/
def argRegs (m : ConfReg) (args : List String) : Except String (List Nat) :=
  (resolveFields m args).map (fun fs => appendRegs [] (fs.map (·.reg)))

/-- The inner loop of the selective read (py2C.py lines 251-254): for each
requested name mapped to register `r`, extract its bits from the register
value. Dict-overwrite semantics for a name repeated in `args` is not
modelled; the engine is only applied to duplicate-free requests. -/
def grabArgs (m : ConfReg) (args : List String) (r val : Nat) :
    List (String × Nat) :=
  args.filterMap fun kw =>
    match lookupField m kw with
    | some f =>
      if f.reg = r then some (kw, bit_grab val f.start f.nbits) else none
    | none => none

/-- The inner loop of the full read (py2C.py lines 236-240): every field of
the map whose register address is `r`. -/
def grabFields (m : ConfReg) (r val : Nat) : List (String × Nat) :=
  m.fields.filterMap fun kv =>
    if kv.2.reg = r then some (kv.1, bit_grab val kv.2.start kv.2.nbits)
    else none

/-- The per-register read loop of `get_config` (py2C.py lines 229-235 /
245-250): block-read `nbytes` bytes at each register, `assert` the answer
length, assemble with `bytes2int`, and extract the requested fields with
`grab`. The read transaction is recorded even when the length assert then
fires. -/
def readRegs (m : ConfReg) (bus : Bus) (grab : Nat → Nat → List (String × Nat)) :
    List Nat → Except String (List (String × Nat)) × List Txn
  | [] => (.ok [], [])
  | r :: rest =>
    let ans := bus r
    if ans.length = m.nbytes then
      let val := bytes2int ans
      let res := readRegs m bus grab rest
      ((res.1).map (fun out => grab r val ++ out), Txn.read r m.nbytes :: res.2)
    else
      (.error "Unexpected number of bytes in register!", [Txn.read r m.nbytes])

/-- The cache-update loop (py2C.py lines 256-257 and 293-294):
`self._config[kw] = out[kw]`. -/
def updateCache (cache : Cache) (out : List (String × Nat)) : Cache :=
  out.foldl (fun c kv => fun x => if x = kv.1 then some kv.2 else c x) cache

/-- Result of `get_config`: error raised (if any), the returned dictionary
in insertion order, the cache after the call, and the bus transactions
performed (the bus itself is never written by a read). -/
structure GetOut where
  err : Option String
  out : List (String × Nat)
  cache : Cache
  txns : List Txn

/-- `I2c_device.get_config(read=True, *args)` (py2C.py lines 204-259).
The guard `len(self._conf_reg) == 0` is modelled as `m.fields = []`: in the
source the dict also holds the `'nbytes'` key, but every device that
declares fields declares `'nbytes'`, and the default empty dict declares
neither. -/
def get_config (m : ConfReg) (cache : Cache) (bus : Bus) (read : Bool)
    (args : List String) : GetOut :=
  if m.fields = [] then
    { err := none, out := [], cache := cache, txns := [] }
  else if !read then
    match cachedLookup cache args with
    | .error e => { err := some e, out := [], cache := cache, txns := [] }
    | .ok out => { err := none, out := out, cache := cache, txns := [] }
  else
    match (if args = [] then .ok (appendRegs [] (m.fields.map (·.2.reg)))
           else argRegs m args : Except String (List Nat)) with
    | .error e => { err := some e, out := [], cache := cache, txns := [] }
    | .ok regs =>
      let grab := if args = [] then grabFields m else grabArgs m args
      let res := readRegs m bus grab regs
      match res.1 with
      | .error e => { err := some e, out := [], cache := cache, txns := res.2 }
      | .ok out =>
        { err := none, out := out, cache := updateCache cache out,
          txns := res.2 }

/-- The validation loop of `config` (py2C.py lines 274-280), in source
order per keyword: `assert kw in self._conf_reg`, collect the register
address, `assert 0 <= kwargs[kw] < 2**nbits`. Values are embedded as `Nat`,
so only the upper bound is a live check. The loop runs to completion before
any bus access. -/
def validateCollect (m : ConfReg) :
    List (String × Nat) → List Nat → Except String (List Nat)
  | [], regs => .ok regs
  | (kw, v) :: rest, regs =>
    match lookupField m kw with
    | none => .error ("Unknown property, " ++ kw ++ "!")
    | some f =>
      let regs' := if f.reg ∈ regs then regs else regs ++ [f.reg]
      if v < 2 ^ f.nbits then validateCollect m rest regs'
      else .error ("Property value for " ++ kw ++ " out of range!")

/-- The bit-splicing loop of `config` for one register (py2C.py lines
285-288): fold `bit_set` over every keyword mapped to register `r`. The
`none` branch is unreachable after validation. -/
def setRegBits (m : ConfReg) (kwargs : List (String × Nat)) (r val : Nat) :
    Nat :=
  kwargs.foldl
    (fun val kv =>
      match lookupField m kv.1 with
      | some f => if f.reg = r then bit_set val f.start f.nbits kv.2 else val
      | none => val)
    val

/-- The per-register read-modify-write loop of `config` (py2C.py lines
282-291): read the register (no length assert here, unlike `get_config`),
assemble, splice, split back into `nbytes` bytes, and write the whole
register once. -/
def writeRegs (m : ConfReg) (kwargs : List (String × Nat)) (bus : Bus) :
    List Nat → Bus × List Txn
  | [] => (bus, [])
  | r :: rest =>
    let val := bytes2int (bus r)
    let out := int2bytes (setRegBits m kwargs r val) m.nbytes
    let bus' : Bus := fun x => if x = r then out else bus x
    let res := writeRegs m kwargs bus' rest
    (res.1, Txn.read r m.nbytes :: Txn.write r out :: res.2)

/-- Result of `config`: error raised (if any), cache, bus and transaction
trace. -/
structure CfgOut where
  err : Option String
  cache : Cache
  bus : Bus
  txns : List Txn

/-- `I2c_device.config(**kwargs)` (py2C.py lines 261-295). With no keywords
the source returns `self.get_config()` — a full forced read whose returned
dictionary is dropped here (no claim concerns it); otherwise: guard on an
implemented register map, validate all keywords, read-modify-write each
distinct register, then update the cache with the just-written values. -/
def config (m : ConfReg) (cache : Cache) (bus : Bus)
    (kwargs : List (String × Nat)) : CfgOut :=
  if kwargs = [] then
    let g := get_config m cache bus true []
    { err := g.err, cache := g.cache, bus := bus, txns := g.txns }
  else if m.fields = [] then
    { err := some "No configuration register implemented!", cache := cache,
      bus := bus, txns := [] }
  else
    match validateCollect m kwargs [] with
    | .error e => { err := some e, cache := cache, bus := bus, txns := [] }
    | .ok regs =>
      let res := writeRegs m kwargs bus regs
      { err := none, cache := updateCache cache kwargs, bus := res.1,
        txns := res.2 }

/-- The cache-reset loop of `__init__` with `read_config=False` (py2C.py
lines 143-148): `for kw in self._conf_reg: self._config[kw] = None`.
`self._config` resolves to the class-level dict `I2c_device._config`
(line 84), because on this path no instance attribute `_config` is ever
assigned; the loop therefore mutates state shared by all instances. The
loop also visits the `'nbytes'` key of `_conf_reg` and stores `None` there. -/
def initConfig (m : ConfReg) (c : Cache) : Cache :=
  m.fields.foldl (fun c kv => fun x => if x = kv.1 then none else c x)
    (fun x => if x = "nbytes" then none else c x)

/-- The observable result of `I2c_device.__init__(read_config=False)`
(py2C.py lines 124-148) for the address/cache part: the address is stored
write-once through the `addr` setter (lines 112-117) with no check of any
kind against `_valid_addr` (line 76) — the valid-address list is declared
but never read anywhere in the source — and the shared configuration dict
is reset. The constructor has no failure path on this route, so the
embedding is total. -/
structure InitOut where
  addr : Nat
  cache : Cache

def i2c_init (m : ConfReg) (addr : Nat) (shared : Cache) : InitOut :=
  { addr := addr, cache := initConfig m shared }

/-! ### Concrete device data: ADS1115 (py2C.py lines 348-394) -/

/-- `ADS1115._conf_reg` (py2C.py lines 371-385). -/
def ads1115_conf : ConfReg where
  nbytes := 2
  fields := [
    ("OS", ⟨0x01, 15, 1, "Operative status", some [.s "CONV", .s "IDLE"]⟩),
    ("MUX", ⟨0x01, 12, 3, "MUX setting",
      some [.s "AIN0-AIN1", .s "AIN0-AIN3", .s "AIN1-AIN3", .s "AIN2-AIN3",
            .s "AIN0-GND", .s "AIN1-GND", .s "AIN2-GND", .s "AIN3-GND"]⟩),
    ("PGA", ⟨0x01, 9, 3, "PGA setting",
      some [.q 6.144, .q 4.096, .q 2.048, .q 1.024, .q 0.512, .q 0.256,
            .q 0.256, .q 0.256]⟩),
    ("MODE", ⟨0x01, 8, 1, "Conversion mode", some [.s "CONT", .s "SNGL"]⟩),
    ("DR", ⟨0x01, 5, 3, "Data rate",
      some [.n 8, .n 16, .n 32, .n 64, .n 128, .n 250, .n 475, .n 860]⟩),
    ("COMP_MODE", ⟨0x01, 4, 1, "Comparator mode", some [.n 0, .n 1]⟩),
    ("COMP_POL", ⟨0x01, 3, 1, "Alert-pin polarity", some [.n 0, .n 1]⟩),
    ("COMP_LAT", ⟨0x01, 2, 1, "Comparator latch", some [.n 0, .n 1]⟩),
    ("COMP_QUE", ⟨0x01, 0, 2, "Comp. queiung",
      some [.n 1, .n 2, .n 4, .s "OFF"]⟩)]

/-- `ADS1115._valid_addr` (py2C.py line 357). -/
def ads1115_valid_addr : List Nat := [0x48, 0x49, 0x4a, 0x4b]

/-! ### Engine lemmas -/

theorem lookupField_ne_nil {m : ConfReg} {kw : String} {f : ConfField}
    (h : lookupField m kw = some f) : m.fields ≠ [] := by
  intro he
  unfold lookupField at h
  rw [he, List.lookup_nil] at h
  exact Option.noConfusion h

theorem lookup_mem_keys {l : List (String × ConfField)} {kw : String}
    {f : ConfField} (h : l.lookup kw = some f) : kw ∈ l.map Prod.fst := by
  induction l with
  | nil => rw [List.lookup_nil] at h; exact Option.noConfusion h
  | cons kv rest ih =>
    obtain ⟨k1, f1⟩ := kv
    rw [List.lookup_cons] at h
    by_cases he : kw = k1
    · simp [he]
    · have hbe : (kw == k1) = false := beq_false_of_ne he
      rw [hbe] at h
      simp only [List.map_cons, List.mem_cons]
      exact Or.inr (ih h)

theorem lookupField_mem_keys {m : ConfReg} {kw : String} {f : ConfField}
    (h : lookupField m kw = some f) : kw ∈ m.fields.map Prod.fst := by
  unfold lookupField at h
  exact lookup_mem_keys h

theorem initFold_not_mem (l : List (String × ConfField)) (c : Cache)
    (kw : String) (h : kw ∉ l.map Prod.fst) :
    l.foldl (fun c kv => fun x => if x = kv.1 then none else c x) c kw
      = c kw := by
  induction l generalizing c with
  | nil => rfl
  | cons kv rest ih =>
    simp only [List.map_cons, List.mem_cons] at h
    push_neg at h
    simp only [List.foldl_cons]
    rw [ih _ h.2]
    simp [h.1]

theorem initFold_mem (l : List (String × ConfField)) (c : Cache) (kw : String)
    (h : kw ∈ l.map Prod.fst) :
    l.foldl (fun c kv => fun x => if x = kv.1 then none else c x) c kw
      = none := by
  induction l generalizing c with
  | nil => simp at h
  | cons kv rest ih =>
    simp only [List.foldl_cons]
    by_cases hm : kw ∈ rest.map Prod.fst
    · exact ih _ hm
    · have hk : kw = kv.1 := by
        simp only [List.map_cons, List.mem_cons] at h
        tauto
      rw [initFold_not_mem rest _ kw hm]
      simp [hk]

theorem initConfig_mem {m : ConfReg} {kw : String} (c : Cache)
    (h : kw ∈ m.fields.map Prod.fst) : initConfig m c kw = none :=
  initFold_mem m.fields _ kw h

/-! ### C9: cached read of a never-initialised field -/

/-- C9: a cached read (`get_fields([name], force_read=false)`, i.e.
`get_config(read=False, name)`) of a field whose cache entry is still
`None` — which is exactly the state of every field that was never read from
the device and never written through `config` since the constructor reset
the cache — fails with the state error and performs no bus transaction and
no cache change. The final conjunct records that device creation indeed
leaves every mapped field in that state. -/
theorem C9_cold_cache_read_fails (m : ConfReg) (cache : Cache) (bus : Bus)
    (kw : String) (f : ConfField)
    (hf : lookupField m kw = some f) (hc : cache kw = none) :
    (get_config m cache bus false [kw]).err
        = some "Configuration has to be read from device once!" ∧
      (get_config m cache bus false [kw]).txns = [] ∧
      (get_config m cache bus false [kw]).cache = cache ∧
      ∀ addr shared, (i2c_init m addr shared).cache kw = none := by
  have hne := lookupField_ne_nil hf
  refine ⟨?_, ?_, ?_, ?_⟩
  · simp [get_config, hne, cachedLookup, hc]
  · simp [get_config, hne, cachedLookup, hc]
  · simp [get_config, hne, cachedLookup, hc]
  · intro addr shared
    exact initConfig_mem shared (lookupField_mem_keys hf)

theorem C9_cold_cache_read_fails_witness :
    (lookupField ads1115_conf "MODE"
        = some ⟨0x01, 8, 1, "Conversion mode", some [.s "CONT", .s "SNGL"]⟩
      ∧ (i2c_init ads1115_conf 0x48 (fun _ => none)).cache "MODE" = none) ∧
    ((get_config ads1115_conf (i2c_init ads1115_conf 0x48 (fun _ => none)).cache
        (fun _ => [0, 0]) false ["MODE"]).err
      = some "Configuration has to be read from device once!" ∧
    (get_config ads1115_conf (i2c_init ads1115_conf 0x48 (fun _ => none)).cache
        (fun _ => [0, 0]) false ["MODE"]).txns = [] ∧
    (get_config ads1115_conf (i2c_init ads1115_conf 0x48 (fun _ => none)).cache
        (fun _ => [0, 0]) false ["MODE"]).cache
      = (i2c_init ads1115_conf 0x48 (fun _ => none)).cache ∧
    ∀ addr shared, (i2c_init ads1115_conf addr shared).cache "MODE" = none) :=
  ⟨⟨rfl, rfl⟩,
    C9_cold_cache_read_fails ads1115_conf _ _ "MODE" _ rfl rfl⟩

/-! ### C3: invalid set_fields performs no bus transaction -/

theorem validateCollect_error_of_bad (m : ConfReg)
    (kwargs : List (String × Nat)) (kw : String) (v : Nat)
    (hmem : (kw, v) ∈ kwargs)
    (hbad : lookupField m kw = none ∨
      ∃ f, lookupField m kw = some f ∧ 2 ^ f.nbits ≤ v) :
    ∀ regs, ∃ e, validateCollect m kwargs regs = .error e := by
  induction kwargs with
  | nil => cases hmem
  | cons hd rest ih =>
    intro regs
    obtain ⟨k0, v0⟩ := hd
    rcases List.mem_cons.mp hmem with heq | hmem'
    · obtain ⟨hk, hv⟩ := Prod.mk.injEq .. ▸ heq
      subst hk
      subst hv
      rcases hbad with hnone | ⟨f, hf, hge⟩
      · exact ⟨"Unknown property, " ++ kw ++ "!",
          by simp [validateCollect, hnone]⟩
      · have hnlt : ¬ v < 2 ^ f.nbits := by omega
        exact ⟨"Property value for " ++ kw ++ " out of range!",
          by simp [validateCollect, hf, hnlt]⟩
    · cases hlk : lookupField m k0 with
      | none => exact ⟨"Unknown property, " ++ k0 ++ "!",
          by simp [validateCollect, hlk]⟩
      | some f =>
        by_cases hv0 : v0 < 2 ^ f.nbits
        · obtain ⟨e, he⟩ := ih hmem'
            (if f.reg ∈ regs then regs else regs ++ [f.reg])
          exact ⟨e, by simp [validateCollect, hlk, hv0, he]⟩
        · exact ⟨"Property value for " ++ k0 ++ " out of range!",
            by simp [validateCollect, hlk, hv0]⟩

/-- C3: a `config` (set_fields) call containing a name absent from the
register map, or a value out of range for its field width, fails with a
configuration error and performs no bus transaction at all: the trace is
empty, the bus is untouched, and the cache is unchanged. -/
theorem C3_invalid_set_fields_no_bus (m : ConfReg) (cache : Cache) (bus : Bus)
    (kwargs : List (String × Nat)) (kw : String) (v : Nat)
    (hmem : (kw, v) ∈ kwargs)
    (hbad : lookupField m kw = none ∨
      ∃ f, lookupField m kw = some f ∧ 2 ^ f.nbits ≤ v) :
    (config m cache bus kwargs).err.isSome = true ∧
      (config m cache bus kwargs).txns = [] ∧
      (config m cache bus kwargs).bus = bus ∧
      (config m cache bus kwargs).cache = cache := by
  have hne : kwargs ≠ [] := by
    intro h
    subst h
    cases hmem
  by_cases hm : m.fields = []
  · simp [config, hne, hm]
  · obtain ⟨e, he⟩ := validateCollect_error_of_bad m kwargs kw v hmem hbad []
    simp [config, hne, hm, he]

theorem C3_invalid_set_fields_no_bus_witness :
    (("MODE", 7) ∈ [(("MODE" : String), (7 : Nat))] ∧ (2 : Nat) ^ 1 ≤ 7) ∧
    ((config ads1115_conf (fun _ => none) (fun _ => [0, 0])
        [("MODE", 7)]).err.isSome = true ∧
      (config ads1115_conf (fun _ => none) (fun _ => [0, 0])
        [("MODE", 7)]).txns = [] ∧
      (config ads1115_conf (fun _ => none) (fun _ => [0, 0])
        [("MODE", 7)]).bus = (fun _ => [0, 0]) ∧
      (config ads1115_conf (fun _ => none) (fun _ => [0, 0])
        [("MODE", 7)]).cache = (fun _ => none)) :=
  ⟨⟨List.mem_singleton.mpr rfl, by norm_num⟩,
    C3_invalid_set_fields_no_bus ads1115_conf _ _ _ "MODE" 7
      (List.mem_singleton.mpr rfl)
      (Or.inr ⟨⟨0x01, 8, 1, "Conversion mode", some [.s "CONT", .s "SNGL"]⟩,
        rfl, by norm_num⟩)⟩

/-! ### C5: the address is never validated -/

/-- C5 counterexample: the claim says constructing a device with an address
outside the type's valid-address set fails with a configuration error.
`0x00` is not in `ADS1115._valid_addr = [0x48,0x49,0x4a,0x4b]`, yet the
constructor completes normally and stores `0x00`: `__init__` never consults
`_valid_addr` (the list is dead data in the source). -/
theorem C5_counterexample :
    ¬ (0x00 ∈ ads1115_valid_addr) ∧
      (i2c_init ads1115_conf 0x00 (fun _ => none)).addr = 0x00 := by
  exact ⟨by decide, rfl⟩

/-- C5 (amended): construction never checks the address against the device
type's `_valid_addr` set and has no failure path: for every address —
including every address outside the valid set — the constructor succeeds,
stores the address write-once, and resets the configuration cache. -/
theorem C5_constructor_ignores_valid_addr (addr : Nat) (shared : Cache)
    (h : addr ∉ ads1115_valid_addr) :
    (i2c_init ads1115_conf addr shared).addr = addr ∧
      ∀ kw f, lookupField ads1115_conf kw = some f →
        (i2c_init ads1115_conf addr shared).cache kw = none := by
  refine ⟨rfl, ?_⟩
  intro kw f hf
  exact initConfig_mem shared (lookupField_mem_keys hf)

theorem C5_constructor_ignores_valid_addr_witness :
    (0x00 ∉ ads1115_valid_addr) ∧
      ((i2c_init ads1115_conf 0x00 (fun _ => none)).addr = 0x00 ∧
        ∀ kw f, lookupField ads1115_conf kw = some f →
          (i2c_init ads1115_conf 0x00 (fun _ => none)).cache kw = none) :=
  ⟨by decide, C5_constructor_ignores_valid_addr 0x00 (fun _ => none) (by decide)⟩

/-! ### C2: the configuration cache is shared between instances -/

/-- Transport double for the C2 scenario: every register reads as two zero
bytes. -/
def c2_bus : Bus := fun _ => [0, 0]

/-- Construction of the first handle, `d1 = ADS1115(addr=0x48)` (default
`read_config=False`): the class-level `_config` dict — initially empty — is
reset. -/
def c2_shared1 : Cache :=
  (i2c_init ads1115_conf 0x48 (fun _ => none)).cache

/-- `d1.config(MODE=1)`: writes MODE and stores `1` in the (shared) dict. -/
def c2_after_set : CfgOut :=
  config ads1115_conf c2_shared1 c2_bus [("MODE", 1)]

/-- Construction of a second, distinct handle, `d2 = ADS1115(addr=0x49)`:
its `__init__` re-runs the reset loop on the *same* class-level dict,
because `read_config=False` never assigns an instance-level `_config`. -/
def c2_shared3 : Cache :=
  (i2c_init ads1115_conf 0x49 c2_after_set.cache).cache

/-- C2 is a genuine bug in the source: `_config = {}` (py2C.py line 84) is a
class attribute, and with the default `read_config=False` no instance ever
gets its own dict, so `d1` and `d2` mutate shared state. Concretely:
`d1.config(MODE=1)` succeeds and `d1.get_config(False, 'MODE')` then
returns `{MODE: 1}` from cache; after merely *constructing* `d2`, the same
cached read through the untouched handle `d1` fails with the state error —
`d2`'s constructor wiped `d1`'s cache. The spec's ownership claim
("DeviceHandle exclusively owns its config_cache") is the evident intent:
the source comment calls `_config` the "storage place for device's
configuration", and the `read_config=True` path does create a per-instance
dict. -/
theorem C2_cache_shared_between_instances :
    c2_after_set.err = none ∧
      (get_config ads1115_conf c2_after_set.cache c2_after_set.bus false
          ["MODE"]).err = none ∧
      (get_config ads1115_conf c2_after_set.cache c2_after_set.bus false
          ["MODE"]).out = [("MODE", 1)] ∧
      (get_config ads1115_conf c2_shared3 c2_after_set.bus false
          ["MODE"]).err
        = some "Configuration has to be read from device once!" ∧
      (get_config ads1115_conf c2_shared3 c2_after_set.bus false
          ["MODE"]).txns = [] :=
  ⟨rfl, rfl, rfl, rfl, rfl⟩

/-! ### Forced single-name reads return raw extracted bits -/

/-- The result of `get_config(read=True, kw)` for a single mapped name:
one read of the field's register, and the output is the raw `bit_grab`
of the assembled register value — the field's decode table plays no part. -/
theorem get_config_forced_single (m : ConfReg) (cache : Cache) (bus : Bus)
    (kw : String) (f : ConfField) (hf : lookupField m kw = some f)
    (hlen : (bus f.reg).length = m.nbytes) :
    get_config m cache bus true [kw]
      = { err := none,
          out := [(kw, bit_grab (bytes2int (bus f.reg)) f.start f.nbits)],
          cache := updateCache cache
            [(kw, bit_grab (bytes2int (bus f.reg)) f.start f.nbits)],
          txns := [Txn.read f.reg m.nbytes] } := by
  have hne := lookupField_ne_nil hf
  simp [get_config, hne, argRegs, resolveFields, hf, appendRegs, readRegs,
    hlen, grabArgs, Except.map]

/-! ### C4: decode tables are never applied by get_config -/

/-- A one-field register map whose field carries a decode table mapping the
raw value 0 to 5 and 1 to 7, with the register reading as the single byte 0. -/
def c4_demo_conf : ConfReg where
  nbytes := 1
  fields := [("F", ⟨0x00, 0, 1, "demo field", some [.n 5, .n 7]⟩)]

def c4_demo_bus : Bus := fun _ => [0]

/-- C4 counterexample: the claim says a forced read indexes the field's
decode table with the raw extracted integer whenever a table is present.
In the source, `get_config` stores `bit_grab(val, start, nbits)` into the
output dict (py2C.py lines 239, 253) and never touches element 4 of the
`_conf_reg` tuple: with raw value 0 and table `[5, 7]` the claim's decoded
value would be `5`, but the call returns the raw `0`. (Decode tables are
consulted only by facade methods such as `get_conversion`, line 413.) -/
theorem C4_counterexample :
    (get_config c4_demo_conf (fun _ => none) c4_demo_bus true ["F"]).err
        = none ∧
      (get_config c4_demo_conf (fun _ => none) c4_demo_bus true ["F"]).out
        = [("F", 0)] ∧
      lookupField c4_demo_conf "F"
        = some ⟨0x00, 0, 1, "demo field", some [.n 5, .n 7]⟩ ∧
      [DecodeVal.n 5, DecodeVal.n 7].getD 0 (.n 0) = .n 5 ∧
      DecodeVal.n 5 ≠ DecodeVal.n 0 :=
  ⟨rfl, rfl, rfl, rfl, by decide⟩

theorem lookup_mem_pairs {l : List (String × ConfField)} {kw : String}
    {f : ConfField} (h : l.lookup kw = some f) : (kw, f) ∈ l := by
  induction l with
  | nil => rw [List.lookup_nil] at h; exact Option.noConfusion h
  | cons kv rest ih =>
    obtain ⟨k1, f1⟩ := kv
    rw [List.lookup_cons] at h
    by_cases he : kw = k1
    · subst he
      simp only [beq_self_eq_true] at h
      injection h with h
      rw [← h]
      exact List.mem_cons_self _ _
    · have hbe : (kw == k1) = false := beq_false_of_ne he
      rw [hbe] at h
      exact List.mem_cons_of_mem _ (ih h)

theorem grabArgs_mem {m : ConfReg} {args : List String} {r val v : Nat}
    {kws : String} (h : (kws, v) ∈ grabArgs m args r val) :
    ∃ f, lookupField m kws = some f ∧ f.reg = r ∧
      v = bit_grab val f.start f.nbits := by
  unfold grabArgs at h
  rw [List.mem_filterMap] at h
  obtain ⟨kw0, hkw0, hx⟩ := h
  split at hx
  · rename_i f hlk
    split at hx
    · rename_i hr
      injection hx with hx
      obtain ⟨hk, hv⟩ := Prod.mk.injEq .. ▸ hx
      subst hk
      exact ⟨f, hlk, hr, hv.symm⟩
    · exact Option.noConfusion hx
  · exact Option.noConfusion hx

theorem grabFields_mem {m : ConfReg} {r val v : Nat} {kws : String}
    (h : (kws, v) ∈ grabFields m r val) :
    ∃ f, (kws, f) ∈ m.fields ∧ f.reg = r ∧
      v = bit_grab val f.start f.nbits := by
  unfold grabFields at h
  rw [List.mem_filterMap] at h
  obtain ⟨⟨kw0, f⟩, hmem, hx⟩ := h
  split at hx
  · rename_i hr
    injection hx with hx
    obtain ⟨hk, hv⟩ := Prod.mk.injEq .. ▸ hx
    subst hk
    exact ⟨f, hmem, hr, hv.symm⟩
  · exact Option.noConfusion hx

theorem readRegs_out_mem (m : ConfReg) (bus : Bus)
    (grab : Nat → Nat → List (String × Nat)) :
    ∀ regs out, (readRegs m bus grab regs).1 = .ok out →
      ∀ x ∈ out, ∃ r, r ∈ regs ∧ x ∈ grab r (bytes2int (bus r)) := by
  intro regs
  induction regs with
  | nil =>
    intro out h x hx
    simp [readRegs] at h
    subst h
    exact absurd hx (List.not_mem_nil x)
  | cons r rest ih =>
    intro out h x hx
    by_cases hlen : (bus r).length = m.nbytes
    · rw [show (readRegs m bus grab (r :: rest)).1
          = ((readRegs m bus grab rest).1).map
              (fun o => grab r (bytes2int (bus r)) ++ o) by
        simp [readRegs, hlen]] at h
      cases hres : (readRegs m bus grab rest).1 with
      | error e => rw [hres] at h; exact Except.noConfusion h
      | ok out0 =>
        rw [hres] at h
        injection h with h
        rw [← h] at hx
        rcases List.mem_append.mp hx with h1 | h2
        · exact ⟨r, List.mem_cons_self _ _, h1⟩
        · obtain ⟨r0, hr0, hx0⟩ := ih out0 hres x h2
          exact ⟨r0, List.mem_cons_of_mem _ hr0, hx0⟩
    · rw [show (readRegs m bus grab (r :: rest)).1
          = .error "Unexpected number of bytes in register!" by
        simp [readRegs, hlen]] at h
      exact Except.noConfusion h

/-- Every `(name, value)` pair a forced read returns — along either the
full-read path (`args = []`) or the selective path — is the raw `bit_grab`
extraction of one of the map's field entries from its register's assembled
bytes. -/
theorem get_config_out_mem (m : ConfReg) (cache : Cache) (bus : Bus)
    (args : List String) (kws : String) (v : Nat)
    (hmem : (kws, v) ∈ (get_config m cache bus true args).out) :
    ∃ f, (kws, f) ∈ m.fields ∧
      v = bit_grab (bytes2int (bus f.reg)) f.start f.nbits := by
  by_cases hm : m.fields = []
  · simp [get_config, hm] at hmem
  · have hstep : get_config m cache bus true args
        = (match (if args = []
              then Except.ok (appendRegs [] (m.fields.map (·.2.reg)))
              else argRegs m args : Except String (List Nat)) with
          | .error e => { err := some e, out := [], cache := cache, txns := [] }
          | .ok regs =>
            let grab := if args = [] then grabFields m else grabArgs m args
            let res := readRegs m bus grab regs
            match res.1 with
            | .error e =>
              { err := some e, out := [], cache := cache, txns := res.2 }
            | .ok out =>
              { err := none, out := out, cache := updateCache cache out,
                txns := res.2 }) := by
      rw [get_config, if_neg hm]
      rfl
    rw [hstep] at hmem
    cases hreg : (if args = []
        then Except.ok (appendRegs [] (m.fields.map (·.2.reg)))
        else argRegs m args : Except String (List Nat)) with
    | error e => rw [hreg] at hmem; simp at hmem
    | ok regs =>
      rw [hreg] at hmem
      simp only at hmem
      cases hres : (readRegs m bus
          (if args = [] then grabFields m else grabArgs m args) regs).1 with
      | error e => rw [hres] at hmem; simp at hmem
      | ok out0 =>
        rw [hres] at hmem
        simp only at hmem
        obtain ⟨r, _, hx⟩ := readRegs_out_mem m bus _ regs out0 hres _ hmem
        by_cases ha : args = []
        · rw [if_pos ha] at hx
          obtain ⟨f, hf, hr, hv⟩ := grabFields_mem hx
          exact ⟨f, hf, hr ▸ hv⟩
        · rw [if_neg ha] at hx
          obtain ⟨f, hf, hr, hv⟩ := grabArgs_mem hx
          exact ⟨f, lookup_mem_pairs hf, hr ▸ hv⟩

/-- C4 (amended): on every forced read — the selective path
(`get_config(read=True, *args)`, py2C.py lines 241-254) as well as the
full-read path (`args = []`, lines 222-240) — every returned field value is
the raw integer extracted from the assembled register bytes (`bit_grab` of
`bytes2int` at the field's offset and width), the decode table never being
applied; and for a single mapped name the output is exactly that raw value.
Decode tables are consulted only by facade methods such as
`get_conversion`. -/
theorem C4_forced_read_returns_raw (m : ConfReg) (cache : Cache) (bus : Bus) :
    (∀ args kws v, (kws, v) ∈ (get_config m cache bus true args).out →
      ∃ f, (kws, f) ∈ m.fields ∧
        v = bit_grab (bytes2int (bus f.reg)) f.start f.nbits) ∧
    ∀ kws f, lookupField m kws = some f → (bus f.reg).length = m.nbytes →
      (get_config m cache bus true [kws]).out
        = [(kws, bit_grab (bytes2int (bus f.reg)) f.start f.nbits)] := by
  constructor
  · intro args kws v hmem
    exact get_config_out_mem m cache bus args kws v hmem
  · intro kws f hf hlen
    rw [get_config_forced_single m cache bus kws f hf hlen]

theorem C4_forced_read_returns_raw_witness :
    (lookupField c4_demo_conf "F"
        = some ⟨0x00, 0, 1, "demo field", some [.n 5, .n 7]⟩
      ∧ (c4_demo_bus 0x00).length = 1
      ∧ ("F", 0) ∈ (get_config c4_demo_conf (fun _ => none) c4_demo_bus
            true []).out) ∧
    ((get_config c4_demo_conf (fun _ => none) c4_demo_bus true ["F"]).out
        = [("F", bit_grab (bytes2int (c4_demo_bus 0x00)) 0 1)] ∧
      ∃ f, ("F", f) ∈ c4_demo_conf.fields ∧
        0 = bit_grab (bytes2int (c4_demo_bus f.reg)) f.start f.nbits) :=
  ⟨⟨rfl, rfl, by decide⟩,
    (C4_forced_read_returns_raw c4_demo_conf (fun _ => none) c4_demo_bus).2
      "F" ⟨0x00, 0, 1, "demo field", some [.n 5, .n 7]⟩ rfl rfl,
    (C4_forced_read_returns_raw c4_demo_conf (fun _ => none) c4_demo_bus).1
      [] "F" 0 (by decide)⟩

/-! ### C1: writing one field preserves its register siblings -/

/-- `config` with a single `(name, value)` keyword: one read of the field's
register, one write of the whole register with the field's window spliced
in, and the cache updated with the just-set value. -/
theorem config_single_field (m : ConfReg) (cache : Cache) (bus : Bus)
    (a : String) (fa : ConfField) (v : Nat)
    (ha : lookupField m a = some fa) (hv : v < 2 ^ fa.nbits) :
    config m cache bus [(a, v)]
      = { err := none,
          cache := updateCache cache [(a, v)],
          bus := fun x => if x = fa.reg
            then int2bytes
              (bit_set (bytes2int (bus fa.reg)) fa.start fa.nbits v) m.nbytes
            else bus x,
          txns := [Txn.read fa.reg m.nbytes,
            Txn.write fa.reg (int2bytes
              (bit_set (bytes2int (bus fa.reg)) fa.start fa.nbits v)
              m.nbytes)] } := by
  have hne := lookupField_ne_nil ha
  simp [config, hne, validateCollect, ha, hv, writeRegs, setRegBits]

/-- C1: on a register map packing two distinct fields `a` and `b` into the
same register — with the map's invariant that same-register fields do not
overlap and fit in the register — `config` with a value only for `a` (valid
for `a`'s width) performs exactly one read of the whole register followed
by exactly one write of the whole register, and the raw bit-value of the
sibling `b` is unchanged: a subsequent forced read of `b` returns exactly
what a forced read of `b` returned before the write. -/
theorem C1_rmw_preserves_sibling (m : ConfReg) (cache : Cache) (bus : Bus)
    (a b : String) (fa fb : ConfField) (v : Nat)
    (ha : lookupField m a = some fa) (hb : lookupField m b = some fb)
    (hab : a ≠ b) (hreg : fb.reg = fa.reg)
    (hdisj : fa.start + fa.nbits ≤ fb.start ∨ fb.start + fb.nbits ≤ fa.start)
    (hfit : fb.start + fb.nbits ≤ 8 * m.nbytes)
    (hv : v < 2 ^ fa.nbits)
    (hlen : (bus fa.reg).length = m.nbytes) :
    (config m cache bus [(a, v)]).err = none ∧
      (config m cache bus [(a, v)]).txns
        = [Txn.read fa.reg m.nbytes,
           Txn.write fa.reg (int2bytes
             (bit_set (bytes2int (bus fa.reg)) fa.start fa.nbits v)
             m.nbytes)] ∧
      (get_config m (config m cache bus [(a, v)]).cache
          (config m cache bus [(a, v)]).bus true [b]).out
        = [(b, bit_grab (bytes2int (bus fa.reg)) fb.start fb.nbits)] ∧
      (get_config m (config m cache bus [(a, v)]).cache
          (config m cache bus [(a, v)]).bus true [b]).out
        = (get_config m cache bus true [b]).out := by
  rw [config_single_field m cache bus a fa v ha hv]
  set X := bit_set (bytes2int (bus fa.reg)) fa.start fa.nbits v with hX
  set newBus : Bus := fun x => if x = fa.reg
    then int2bytes X m.nbytes else bus x with hnb
  have hnbr : newBus fb.reg = int2bytes X m.nbytes := by
    rw [hnb]
    simp [hreg]
  have hlen' : (newBus fb.reg).length = m.nbytes := by
    rw [hnbr, int2bytes_length]
  have hgrab : bit_grab (bytes2int (newBus fb.reg)) fb.start fb.nbits
      = bit_grab (bytes2int (bus fa.reg)) fb.start fb.nbits := by
    rw [hnbr, bytes2int_int2bytes, bit_grab_mod _ _ _ _ hfit, hX]
    rcases hdisj with h | h
    · exact bit_grab_bit_set_hi _ _ _ _ _ _ hv h
    · exact bit_grab_bit_set_lo _ _ _ _ _ _ h
  have hlen'' : (bus fb.reg).length = m.nbytes := by rw [hreg]; exact hlen
  refine ⟨rfl, rfl, ?_, ?_⟩
  · rw [get_config_forced_single m _ newBus b fb hb hlen', hgrab]
  · rw [get_config_forced_single m _ newBus b fb hb hlen',
      get_config_forced_single m cache bus b fb hb hlen'', hgrab, hreg]

theorem C1_rmw_preserves_sibling_witness :
    ("MODE" ≠ "DR" ∧ (1 : Nat) < 2 ^ 1 ∧
        (((fun _ => [0, 0]) : Bus) 0x01).length = 2) ∧
      ((config ads1115_conf (fun _ => none) (fun _ => [0, 0])
          [("MODE", 1)]).err = none ∧
        (config ads1115_conf (fun _ => none) (fun _ => [0, 0])
          [("MODE", 1)]).txns
          = [Txn.read 0x01 2, Txn.write 0x01 [0x01, 0x00]] ∧
        (get_config ads1115_conf
            (config ads1115_conf (fun _ => none) (fun _ => [0, 0])
              [("MODE", 1)]).cache
            (config ads1115_conf (fun _ => none) (fun _ => [0, 0])
              [("MODE", 1)]).bus true ["DR"]).out
          = [("DR", 0)] ∧
        (get_config ads1115_conf
            (config ads1115_conf (fun _ => none) (fun _ => [0, 0])
              [("MODE", 1)]).cache
            (config ads1115_conf (fun _ => none) (fun _ => [0, 0])
              [("MODE", 1)]).bus true ["DR"]).out
          = (get_config ads1115_conf (fun _ => none) (fun _ => [0, 0])
              true ["DR"]).out) :=
  ⟨⟨by decide, by norm_num, rfl⟩,
    C1_rmw_preserves_sibling ads1115_conf (fun _ => none) (fun _ => [0, 0])
      "MODE" "DR"
      ⟨0x01, 8, 1, "Conversion mode", some [.s "CONT", .s "SNGL"]⟩
      ⟨0x01, 5, 3, "Data rate",
        some [.n 8, .n 16, .n 32, .n 64, .n 128, .n 250, .n 475, .n 860]⟩
      1 rfl rfl (by decide) rfl (Or.inr (by norm_num)) (by decide)
      (by norm_num) rfl⟩

/-! ### Facade: groups, switch focus, and the `get()` shorthands -/

/-- `byte2bits(num, n)` (py2C.py lines 31-36): LSB-first bit list. -/
def byte2bits (num : Nat) (n : Nat := 8) : List Nat :=
  (List.range n).map fun i => bit_grab num i 1

/-- `TCA9545A.get_settings` (py2C.py lines 1011-1016): read the switch's
control byte and keep the four channel bits `[x0,x1,x2,x3]`. -/
def tca_get_settings (switchByte : Nat) : List Nat :=
  (byte2bits switchByte 8).take 4

/-- `TCA9545A.set_channels` (py2C.py lines 999-1009): the control byte is
rebuilt by shifting in the reversed settings and written to the switch,
replacing its channel byte. The `assert s in (0,1)` checks hold for every
list the facade passes (they come from `get_settings` and `List.set` with
0/1 values). -/
def tca_set_channels (settings : List Nat) : Nat :=
  settings.reverse.foldl (fun ctrl s => (ctrl <<< 1) + s) 0

/-- `TCA9545A.disable` for one channel (py2C.py lines 1026-1032). -/
def tca_disable (switchByte ch : Nat) : Nat :=
  tca_set_channels ((tca_get_settings switchByte).set ch 0)

/-- The `group` option of the ADS1115/HIH8121 facades: the sibling switch
device (modelled by its channel byte), the group's channel list, and the
device's own channel `me`. -/
structure Group where
  switchByte : Nat
  channels : List Nat
  me : Nat

/-- `ADS1115.set_focus` / `HIH8121.set_focus` (py2C.py lines 487-495 and
1162-1176): with `group = None` this is a no-op; otherwise the switch's
settings are read, every group channel cleared, the device's own channel
set, and the settings written back. (The switch's transactions travel on
the switch's own bus address and are not part of this device's trace.) -/
def set_focus (g : Option Group) : Option Group :=
  match g with
  | none => none
  | some g =>
    let sw := g.channels.foldl (fun sw ch => sw.set ch 0)
      (tca_get_settings g.switchByte)
    some { g with switchByte := tca_set_channels (sw.set g.me 1) }

/-- Full-scale lookup `self._conf_reg['PGA'][4][i]` (py2C.py line 413): the
PGA decode table holds only rationals, so the non-rational branches are
unreachable. -/
def ads_PGA_FS (i : Nat) : ℚ :=
  match (lookupField ads1115_conf "PGA").bind (·.decode) with
  | some l =>
    match l.getD i (.n 0) with
    | .q x => x
    | .n x => (x : ℚ)
    | .s _ => 0
  | none => 0

/-- `ADS1115.get_conversion` (py2C.py lines 407-416): take the PGA index
from the cache, falling back to a full forced `get_config()` when the cache
holds `None`; then read the 2-byte CONV data register (0x00) and scale the
two's-complement raw value by the full scale over `2^15`. Returns
`(error, value, cache, transactions)`. -/
def get_conversion (cache : Cache) (bus : Bus) :
    Option String × ℚ × Cache × List Txn :=
  match cache "PGA" with
  | some i =>
    (none,
      ads_PGA_FS i * ((twoscompl2int (bytes2int (bus 0x00)) 16 : Int) : ℚ)
        / 2 ^ 15,
      cache, [Txn.read 0x00 2])
  | none =>
    let g := get_config ads1115_conf cache bus true []
    match g.err with
    | some e => (some e, 0, g.cache, g.txns)
    | none =>
      let i := (g.out.lookup "PGA").getD 0
      (none,
        ads_PGA_FS i * ((twoscompl2int (bytes2int (bus 0x00)) 16 : Int) : ℚ)
          / 2 ^ 15,
        g.cache, g.txns ++ [Txn.read 0x00 2])

/-- `ADS1115.get_single()` with neither `ch` nor `MUX` (py2C.py lines
438-440 and 457-462): `config(MODE=1, OS=1)`, a sleep (no bus effect),
then `get_conversion()`. -/
def get_single_default (cache : Cache) (bus : Bus) :
    Option String × ℚ × Cache × Bus × List Txn :=
  let c := config ads1115_conf cache bus [("MODE", 1), ("OS", 1)]
  match c.err with
  | some e => (some e, 0, c.cache, c.bus, c.txns)
  | none =>
    let g := get_conversion c.cache c.bus
    (g.1, g.2.1, g.2.2.1, c.bus, c.txns ++ g.2.2.2)

/-- `ADS1115.get_single(MUX=mux)` (py2C.py lines 441-449 and 457-462):
`assert MUX in range(0b000, 0b111+1)`, then `config(MUX=mux, MODE=1, OS=1)`
and `get_conversion()`. -/
def get_single_mux (mux : Nat) (cache : Cache) (bus : Bus) :
    Option String × ℚ × Cache × Bus × List Txn :=
  if mux < 8 then
    let c := config ads1115_conf cache bus
      [("MUX", mux), ("MODE", 1), ("OS", 1)]
    match c.err with
    | some e => (some e, 0, c.cache, c.bus, c.txns)
    | none =>
      let g := get_conversion c.cache c.bus
      (g.1, g.2.1, g.2.2.1, c.bus, c.txns ++ g.2.2.2)
  else
    (some "MUX setting needs to be in [0b000,0b111]!", 0, cache, bus, [])

/-- The mutable attributes of an ADS1115 handle that `get()` touches. -/
structure AdsState where
  cache : Cache
  bus : Bus
  cycle : Option (List Nat)
  group : Option Group

structure AdsGetOut where
  err : Option String
  value : ℚ
  cache : Cache
  bus : Bus
  cycle : Option (List Nat)
  group : Option Group
  txns : List Txn

/-- `ADS1115.get` (py2C.py lines 498-517): `set_focus()`; a single
conversion — `get_single()` or, with a cycle, `get_single(MUX=cycle[0])`
followed by the cycle advance `cycle.append(cycle.pop(0))`; then,
unconditionally, `self.group['switch'].disable(self.group['me'])`, which
raises `TypeError` when `group` is `None` (`None` is not subscriptable);
the value is returned only after that line. An empty cycle raises
`IndexError` at `self.cycle[0]` before any transaction; an exception inside
`get_single` leaves the cycle unadvanced. -/
def ads1115_get (s : AdsState) : AdsGetOut :=
  let g' := set_focus s.group
  match s.cycle with
  | none =>
    let r := get_single_default s.cache s.bus
    match r.1 with
    | some e =>
      { err := some e, value := r.2.1, cache := r.2.2.1, bus := r.2.2.2.1,
        cycle := none, group := g', txns := r.2.2.2.2 }
    | none =>
      match g' with
      | none =>
        { err := some "TypeError: NoneType is not subscriptable",
          value := r.2.1, cache := r.2.2.1, bus := r.2.2.2.1,
          cycle := none, group := none, txns := r.2.2.2.2 }
      | some g =>
        { err := none, value := r.2.1, cache := r.2.2.1, bus := r.2.2.2.1,
          cycle := none,
          group := some
            { g with switchByte := tca_disable g.switchByte g.me },
          txns := r.2.2.2.2 }
  | some [] =>
    { err := some "IndexError: list index out of range", value := 0,
      cache := s.cache, bus := s.bus, cycle := some [], group := g',
      txns := [] }
  | some (c :: rest) =>
    let r := get_single_mux c s.cache s.bus
    match r.1 with
    | some e =>
      { err := some e, value := r.2.1, cache := r.2.2.1, bus := r.2.2.2.1,
        cycle := some (c :: rest), group := g', txns := r.2.2.2.2 }
    | none =>
      match g' with
      | none =>
        { err := some "TypeError: NoneType is not subscriptable",
          value := r.2.1, cache := r.2.2.1, bus := r.2.2.2.1,
          cycle := some (rest ++ [c]), group := none, txns := r.2.2.2.2 }
      | some g =>
        { err := none, value := r.2.1, cache := r.2.2.1, bus := r.2.2.2.1,
          cycle := some (rest ++ [c]),
          group := some
            { g with switchByte := tca_disable g.switchByte g.me },
          txns := r.2.2.2.2 }

/-- The attributes of an HIH8121 handle that `get()` touches
(`_default`, py2C.py lines 1115-1125; ranges and offsets as exact
rationals). -/
structure HihState where
  bus : Bus
  cycle : Option (List Nat)
  group : Option Group
  hum_range : ℚ
  hum_offset : ℚ
  temp_range : ℚ
  temp_offset : ℚ
  get_temp : Nat

structure HihGetOut where
  err : Option String
  value : ℚ
  cycle : Option (List Nat)
  group : Option Group
  txns : List Txn

/-- `HIH8121.get_data` (py2C.py lines 1144-1160): block-read 4 bytes at
control byte 0x00 and unpack `(humidity, temperature, status)` with
`BIT_DEPTH = 14`. Python floats are modelled as exact rationals; byte-list
indexing uses `getD 0` — the smbus block read returns exactly the 4
requested bytes. -/
def hih_get_data (s : HihState) : ℚ × ℚ × Nat :=
  let data := s.bus 0x00
  let d0 := data.getD 0 0
  let d1 := data.getD 1 0
  let d2 := data.getD 2 0
  let d3 := data.getD 3 0
  let status := d0 >>> 6
  let hum_raw := ((d0 - (status <<< 6)) <<< 8) + d1
  let temp_raw := ((d2 <<< 8) + d3) >>> 2
  (s.hum_range * hum_raw / (2 ^ 14 - 2) + s.hum_offset,
   s.temp_range * temp_raw / (2 ^ 14 - 2) + s.temp_offset,
   status)

/-- `HIH8121.get` (py2C.py lines 1179-1196): `set_focus()`;
`request_measurement()` — a `write()` with no arguments, i.e. a single
zero byte (line 163); `get_data()` — a 4-byte read; select the tuple index
from `get_temp` or from the cycle; then, unconditionally,
`self.group['switch'].disable(self.group['me'])`, which raises `TypeError`
when `group` is `None`, before `data[i]` is returned. -/
def hih8121_get (s : HihState) : HihGetOut :=
  let g' := set_focus s.group
  let d := hih_get_data s
  let txns := [Txn.writeByte 0x00, Txn.read 0x00 4]
  let data := [d.1, d.2.1, (d.2.2 : ℚ)]
  match s.cycle with
  | none =>
    match g' with
    | none =>
      { err := some "TypeError: NoneType is not subscriptable",
        value := data.getD s.get_temp 0, cycle := none, group := none,
        txns := txns }
    | some g =>
      { err := none, value := data.getD s.get_temp 0, cycle := none,
        group := some { g with switchByte := tca_disable g.switchByte g.me },
        txns := txns }
  | some [] =>
    { err := some "IndexError: list index out of range", value := 0,
      cycle := some [], group := g', txns := txns }
  | some (c :: rest) =>
    match g' with
    | none =>
      { err := some "TypeError: NoneType is not subscriptable",
        value := data.getD c 0, cycle := some (rest ++ [c]), group := none,
        txns := txns }
    | some g =>
      { err := none, value := data.getD c 0, cycle := some (rest ++ [c]),
        group := some { g with switchByte := tca_disable g.switchByte g.me },
        txns := txns }

/-! ### C10 supporting lemmas -/

theorem updateCache_not_mem (l : List (String × Nat)) (c : Cache)
    (kw : String) (h : kw ∉ l.map Prod.fst) : updateCache c l kw = c kw := by
  unfold updateCache
  induction l generalizing c with
  | nil => rfl
  | cons kv rest ih =>
    simp only [List.map_cons, List.mem_cons] at h
    push_neg at h
    simp only [List.foldl_cons]
    rw [ih _ h.2]
    simp [h.1]

theorem writeRegs_single (m : ConfReg) (kwargs : List (String × Nat))
    (bus : Bus) (r : Nat) :
    writeRegs m kwargs bus [r]
      = (fun x => if x = r
            then int2bytes (setRegBits m kwargs r (bytes2int (bus r)))
              m.nbytes
            else bus x,
         [Txn.read r m.nbytes,
          Txn.write r (int2bytes (setRegBits m kwargs r (bytes2int (bus r)))
            m.nbytes)]) := by
  simp [writeRegs]

theorem config_eval (m : ConfReg) (cache : Cache) (bus : Bus)
    (kwargs : List (String × Nat)) (regs : List Nat)
    (hkw : kwargs ≠ []) (hne : m.fields ≠ [])
    (hval : validateCollect m kwargs [] = .ok regs) :
    config m cache bus kwargs
      = { err := none, cache := updateCache cache kwargs,
          bus := (writeRegs m kwargs bus regs).1,
          txns := (writeRegs m kwargs bus regs).2 } := by
  simp [config, hkw, hne, hval]

theorem ads1115_nbytes : ads1115_conf.nbytes = 2 := rfl

theorem validate_mode_os :
    validateCollect ads1115_conf [("MODE", 1), ("OS", 1)] [] = .ok [0x01] :=
  rfl

theorem validate_mux_mode_os (c : Nat) (hc : c < 8) :
    validateCollect ads1115_conf [("MUX", c), ("MODE", 1), ("OS", 1)] []
      = .ok [0x01] := by
  have h : validateCollect ads1115_conf [("MUX", c), ("MODE", 1), ("OS", 1)] []
      = if c < 2 ^ 3 then .ok [0x01]
        else .error "Property value for MUX out of range!" := rfl
  have h8 : (2 : Nat) ^ 3 = 8 := by norm_num
  rw [h, h8, if_pos hc]

theorem get_config_full_ads (cache : Cache) (bus : Bus)
    (hlen : (bus 0x01).length = 2) :
    (get_config ads1115_conf cache bus true []).err = none ∧
      (get_config ads1115_conf cache bus true []).txns = [Txn.read 0x01 2] := by
  have hne : ads1115_conf.fields ≠ [] := List.cons_ne_nil _ _
  have hregs : appendRegs [] (ads1115_conf.fields.map (·.2.reg)) = [0x01] :=
    rfl
  have hlen' : (bus 0x01).length = ads1115_conf.nbytes := hlen
  constructor <;>
    simp [get_config, hne, hregs, readRegs, hlen', Except.map, ads1115_nbytes]

theorem get_single_default_spec (cache : Cache) (bus : Bus) :
    (get_single_default cache bus).1 = none ∧
      Txn.read 0x01 2 ∈ (get_single_default cache bus).2.2.2.2 ∧
      Txn.read 0x00 2 ∈ (get_single_default cache bus).2.2.2.2 := by
  have hne : ads1115_conf.fields ≠ [] := List.cons_ne_nil _ _
  have hc := config_eval ads1115_conf cache bus [("MODE", 1), ("OS", 1)]
    [0x01] (by simp) hne validate_mode_os
  rw [writeRegs_single] at hc
  have hpga : updateCache cache [("MODE", 1), ("OS", 1)] "PGA"
      = cache "PGA" := updateCache_not_mem _ _ _ (by decide)
  set bus2 : Bus := fun x => if x = 0x01
      then int2bytes
        (setRegBits ads1115_conf [("MODE", 1), ("OS", 1)] 0x01
          (bytes2int (bus 0x01))) ads1115_conf.nbytes
      else bus x with hbus2
  have hlen' : (bus2 0x01).length = 2 := by
    rw [hbus2]
    simp [int2bytes_length, ads1115_nbytes]
  cases hp : cache "PGA" with
  | some i =>
    simp [get_single_default, hc, get_conversion, hpga, hp, ads1115_nbytes]
  | none =>
    obtain ⟨he, ht⟩ := get_config_full_ads
      (updateCache cache [("MODE", 1), ("OS", 1)]) bus2 hlen'
    simp [get_single_default, hc, get_conversion, hpga, hp, he, ht,
      ads1115_nbytes]

theorem get_single_mux_spec (mux : Nat) (hmux : mux < 8) (cache : Cache)
    (bus : Bus) :
    (get_single_mux mux cache bus).1 = none ∧
      Txn.read 0x01 2 ∈ (get_single_mux mux cache bus).2.2.2.2 ∧
      Txn.read 0x00 2 ∈ (get_single_mux mux cache bus).2.2.2.2 := by
  have hne : ads1115_conf.fields ≠ [] := List.cons_ne_nil _ _
  have hc := config_eval ads1115_conf cache bus
    [("MUX", mux), ("MODE", 1), ("OS", 1)] [0x01] (by simp) hne
    (validate_mux_mode_os mux hmux)
  rw [writeRegs_single] at hc
  have hpga : updateCache cache [("MUX", mux), ("MODE", 1), ("OS", 1)] "PGA"
      = cache "PGA" := updateCache_not_mem _ _ _ (by simp)
  set bus2 : Bus := fun x => if x = 0x01
      then int2bytes
        (setRegBits ads1115_conf [("MUX", mux), ("MODE", 1), ("OS", 1)] 0x01
          (bytes2int (bus 0x01))) ads1115_conf.nbytes
      else bus x with hbus2
  have hlen' : (bus2 0x01).length = 2 := by
    rw [hbus2]
    simp [int2bytes_length, ads1115_nbytes]
  cases hp : cache "PGA" with
  | some i =>
    simp [get_single_mux, hmux, hc, get_conversion, hpga, hp, ads1115_nbytes]
  | none =>
    obtain ⟨he, ht⟩ := get_config_full_ads
      (updateCache cache [("MUX", mux), ("MODE", 1), ("OS", 1)]) bus2 hlen'
    simp [get_single_mux, hmux, hc, get_conversion, hpga, hp, he, ht,
      ads1115_nbytes]

/-- C10: the facade-level `get()` of an ADS1115 or HIH8121 constructed
without a group (`group = None`, the default) always raises an error after
performing its bus transactions, because after the conversion it
unconditionally evaluates `self.group['switch']` when releasing focus;
`get()` can succeed only on devices that belong to a group, even though
`set_focus` itself tolerates `group = None` (final conjunct: it is a no-op
there). For the ADS1115 the trace nevertheless contains the configuration
read (register 0x01) and the conversion read (register 0x00); for the
HIH8121 it is exactly the measurement-request byte and the 4-byte data
read. (Cycle lists are assumed non-empty with in-range multiplexer values;
a malformed cycle raises even earlier.) -/
theorem C10_get_requires_group :
    (∀ s : AdsState, s.group = none →
      (s.cycle = none ∨ ∃ c rest, s.cycle = some (c :: rest) ∧ c < 8) →
      (ads1115_get s).err.isSome = true ∧
        Txn.read 0x01 2 ∈ (ads1115_get s).txns ∧
        Txn.read 0x00 2 ∈ (ads1115_get s).txns) ∧
    (∀ s : HihState, s.group = none →
      (s.cycle = none ∨ ∃ c rest, s.cycle = some (c :: rest)) →
      (hih8121_get s).err = some "TypeError: NoneType is not subscriptable" ∧
        (hih8121_get s).txns = [Txn.writeByte 0x00, Txn.read 0x00 4]) ∧
    set_focus none = none := by
  refine ⟨?_, ?_, rfl⟩
  · intro s hg hcyc
    obtain ⟨cache, bus, cycle, group⟩ := s
    simp only at hg
    subst hg
    rcases hcyc with hcyc | ⟨c, rest, hcyc, hc⟩ <;> simp only at hcyc <;>
      subst hcyc
    · obtain ⟨h1, h2, h3⟩ := get_single_default_spec cache bus
      simp [ads1115_get, set_focus, h1, h2, h3]
    · obtain ⟨h1, h2, h3⟩ := get_single_mux_spec c hc cache bus
      simp [ads1115_get, set_focus, h1, h2, h3]
  · intro s hg hcyc
    obtain ⟨bus, cycle, group, a1, a2, a3, a4, a5⟩ := s
    simp only at hg
    subst hg
    rcases hcyc with hcyc | ⟨c, rest, hcyc⟩ <;> simp only at hcyc <;>
      subst hcyc <;> simp [hih8121_get, set_focus]

/-- A group-less ADS1115 as constructed by the defaults: empty cache,
all-zero registers, no cycle, no group. -/
def c10_ads_state : AdsState :=
  { cache := fun _ => none, bus := fun _ => [0, 0], cycle := none,
    group := none }

/-- A group-less HIH8121 with the `_default` ranges and offsets. -/
def c10_hih_state : HihState :=
  { bus := fun _ => [0, 0, 0, 0], cycle := none, group := none,
    hum_range := 100, hum_offset := 0, temp_range := 165,
    temp_offset := -40, get_temp := 0 }

theorem C10_get_requires_group_witness :
    (c10_ads_state.group = none ∧ c10_ads_state.cycle = none ∧
        c10_hih_state.group = none ∧ c10_hih_state.cycle = none) ∧
      ((ads1115_get c10_ads_state).err.isSome = true ∧
        Txn.read 0x01 2 ∈ (ads1115_get c10_ads_state).txns ∧
        Txn.read 0x00 2 ∈ (ads1115_get c10_ads_state).txns) ∧
      ((hih8121_get c10_hih_state).err
          = some "TypeError: NoneType is not subscriptable" ∧
        (hih8121_get c10_hih_state).txns
          = [Txn.writeByte 0x00, Txn.read 0x00 4]) :=
  ⟨⟨rfl, rfl, rfl, rfl⟩,
    C10_get_requires_group.1 c10_ads_state rfl (Or.inl rfl),
    C10_get_requires_group.2.1 c10_hih_state rfl (Or.inl rfl)⟩

end Py2C
